import Mathlib

set_option maxHeartbeats 1000000

namespace Wayframe

/-- A Go `map[string]string` (the file-value table), modelled extensionally:
a total function from keys to optional values. -/
def Table : Type := String → Option String

def emptyTable : Table := fun _ => none

/-- Map insert with overwrite, as Go `m[k] = v`. -/
def tinsert (t : Table) (k v : String) : Table := fun x => if x = k then some v else t x

/-- A Go `map[string]time.Duration` (the duration cache of `Loader`);
durations are nanosecond counts carried as `Int`. -/
def DurTable : Type := String → Option Int

def emptyDur : DurTable := fun _ => none

def dinsert (t : DurTable) (k : String) (v : Int) : DurTable :=
  fun x => if x = k then some v else t x

/-- The process environment as read by `os.Getenv`: a variable that is absent
reads as the empty string, exactly as in Go. -/
def Env : Type := String → String

/-- Case mapping of `strings.ToUpper`, restricted to ASCII (the only case
mapping this package's keys exercise); non-ASCII characters pass through. -/
def goToUpper (s : String) : String := String.mk (s.data.map Char.toUpper)

/-- Case mapping of `strings.ToLower`, restricted to ASCII. -/
def goToLower (s : String) : String := String.mk (s.data.map Char.toLower)

/-- The `Loader` struct of pkg/config/config.go: file-value table, duration
cache, and the uppercased environment-variable name prefix. -/
structure Loader where
  values : Table
  durations : DurTable
  pfx : String

/-- `New` of pkg/config/config.go: empty maps, uppercased prefix. -/
def goNew (p : String) : Loader :=
  { values := emptyTable, durations := emptyDur, pfx := goToUpper p }

/-- `Loader.buildKey` of pkg/config/config.go. -/
def buildKey (p k : String) : String := if p ≠ "" then p ++ "_" ++ k else k

/-- `Loader.String` of pkg/config/config.go: uppercase the key, consult the
environment variable `buildKey`, then the file-value table, then the default. -/
def goString (l : Loader) (env : Env) (key defaultValue : String) : String :=
  let k := goToUpper key
  let envKey := buildKey l.pfx k
  if env envKey ≠ "" then env envKey
  else
    match l.values k with
    | some v => v
    | none => defaultValue

/-- Digit run to a number: `none` when the list is empty or holds a non-digit. -/
def digitsToNat : List Char → Option Nat
  | [] => none
  | [c] => if c.isDigit then some (c.toNat - 48) else none
  | c :: cs =>
    if c.isDigit then
      match digitsToNat cs with
      | some n => some ((c.toNat - 48) * 10 ^ cs.length + n)
      | none => none
    else none

/-- `strconv.Atoi` (= `strconv.ParseInt(s, 10, 0)` on a 64-bit platform):
optional sign, one or more decimal digits, the signed 64-bit range. -/
def goAtoi (s : String) : Option Int :=
  let (neg, ds) :=
    match s.data with
    | '-' :: rest => (true, rest)
    | '+' :: rest => (false, rest)
    | l => (false, l)
  match digitsToNat ds with
  | none => none
  | some n =>
    let v : Int := if neg then -(n : Int) else (n : Int)
    if -(2 ^ 63 : Int) ≤ v ∧ v ≤ 2 ^ 63 - 1 then some v else none

/-- `Loader.Int` of pkg/config/config.go. -/
def goInt (l : Loader) (env : Env) (key : String) (defaultValue : Int) : Int :=
  let val := goString l env key ""
  if val = "" then defaultValue
  else
    match goAtoi val with
    | some i => i
    | none => defaultValue

/-- `Loader.Bool` of pkg/config/config.go. -/
def goBool (l : Loader) (env : Env) (key : String) (defaultValue : Bool) : Bool :=
  let val := goString l env key ""
  if val = "" then defaultValue
  else
    let v := goToLower val
    if v = "true" ∨ v = "1" ∨ v = "yes" ∨ v = "on" then true
    else if v = "false" ∨ v = "0" ∨ v = "no" ∨ v = "off" then false
    else defaultValue

/-- `Loader.Required` of pkg/config/config.go; the Go `panic` is modelled as
`Except.error` carrying the panic message. -/
def goRequired (l : Loader) (env : Env) (key : String) : Except String String :=
  let val := goString l env key ""
  if val = "" then
    Except.error ("required configuration " ++ buildKey l.pfx (goToUpper key) ++ " is not set")
  else Except.ok val

/-- The `unitMap` of Go `time.ParseDuration`: nanoseconds per unit suffix. -/
def durUnit (u : String) : Option Nat :=
  if u = "ns" then some 1
  else if u = "us" ∨ u = "µs" ∨ u = "μs" then some 1000
  else if u = "ms" then some 1000000
  else if u = "s" then some 1000000000
  else if u = "m" then some 60000000000
  else if u = "h" then some 3600000000000
  else none

/-- `leadingInt` of Go time: consume leading digits into an accumulator,
failing (as Go does) once the value would exceed the signed 64-bit range. -/
def leadInt : Nat → List Char → Option (Nat × List Char)
  | x, [] => some (x, [])
  | x, c :: cs =>
    if c.isDigit then
      let y := x * 10 + (c.toNat - 48)
      if y ≥ 2 ^ 63 then none else leadInt y cs
    else some (x, c :: cs)

/-- `leadingFraction` of Go time: consume fraction digits, tracking the scale;
once the accumulator would overflow, further digits are consumed but ignored. -/
def leadFrac : Nat → Nat → Bool → List Char → Nat × Nat × List Char
  | x, scale, _, [] => (x, scale, [])
  | x, scale, ov, c :: cs =>
    if c.isDigit then
      if ov then leadFrac x scale ov cs
      else
        let y := x * 10 + (c.toNat - 48)
        if y ≥ 2 ^ 63 then leadFrac x scale true cs
        else leadFrac y (scale * 10) false cs
    else (x, scale, c :: cs)

/-- One character is neither a digit nor a period (Go's unit-scan condition). -/
def notNumCh (c : Char) : Bool := ¬ (c = '.' ∨ c.isDigit)

/-- The component loop of Go `time.ParseDuration`. The fuel argument bounds
the number of components; each iteration consumes at least one character, so
`length + 1` fuel is never exhausted. Go computes the fractional contribution
in float64; it is modelled here by exact natural division `f * unit / scale`. -/
def durLoop : Nat → Nat → List Char → Option Nat
  | 0, _, _ => none
  | _ + 1, d, [] => some d
  | fuel + 1, d, c :: cs =>
    if notNumCh c then none
    else
      match leadInt 0 (c :: cs) with
      | none => none
      | some (v, s1) =>
        let pre : Bool := s1.length != (c :: cs).length
        let (f, scale, s2, post) :=
          match s1 with
          | '.' :: s1' =>
            let (f, sc, s2) := leadFrac 0 1 false s1'
            (f, sc, s2, (s2.length != s1'.length : Bool))
          | _ => (0, 1, s1, false)
        if ¬ pre ∧ ¬ post then none
        else
          let u := s2.takeWhile notNumCh
          let s3 := s2.drop u.length
          if u = [] then none
          else
            match durUnit (String.mk u) with
            | none => none
            | some unit =>
              if v > (2 ^ 63 - 1) / unit then none
              else
                let v := v * unit
                let v := if f > 0 then v + f * unit / scale else v
                if v ≥ 2 ^ 63 then none
                else
                  let d := d + v
                  if d ≥ 2 ^ 63 then none
                  else durLoop fuel d s3

/-- `time.ParseDuration`: optional sign, special case `"0"`, then a sequence
of number + unit components; result in nanoseconds, `none` on any error. -/
def goParseDuration (s : String) : Option Int :=
  let cs0 := s.data
  let (neg, cs) :=
    match cs0 with
    | c :: rest =>
      if c = '-' then (true, rest) else if c = '+' then (false, rest) else (false, cs0)
    | [] => (false, [])
  if cs = ['0'] then some 0
  else if cs = [] then none
  else
    match durLoop (cs.length + 1) 0 cs with
    | none => none
    | some d => some (if neg then -(d : Int) else (d : Int))

/-- `Loader.Duration` of pkg/config/config.go: consult the duration cache,
then resolve via `String`; successful parses are cached. Returns the value
together with the (possibly cache-extended) loader. -/
def goDuration (l : Loader) (env : Env) (key : String) (defaultValue : Int) :
    Int × Loader :=
  let k := goToUpper key
  match l.durations k with
  | some cached => (cached, l)
  | none =>
    let val := goString l env k ""
    if val = "" then (defaultValue, l)
    else
      match goParseDuration val with
      | none => (defaultValue, l)
      | some d => (d, { l with durations := dinsert l.durations k d })

/-- White space as trimmed by `strings.TrimSpace` (Unicode white space,
modelled on its Latin-1 subset: space, tab, LF, VT, FF, CR, NEL, NBSP). -/
def isGoSpace (c : Char) : Bool :=
  c.toNat = 32 || c.toNat = 9 || c.toNat = 10 || c.toNat = 11 || c.toNat = 12 ||
  c.toNat = 13 || c.toNat = 133 || c.toNat = 160

/-- Drop leading characters satisfying `p`. -/
def ltrimBy (p : Char → Bool) (l : List Char) : List Char := l.dropWhile p

/-- Drop trailing characters satisfying `p`. -/
def rtrimBy (p : Char → Bool) (l : List Char) : List Char :=
  (l.reverse.dropWhile p).reverse

/-- `strings.TrimSpace` over the character list. -/
def trimList (l : List Char) : List Char := rtrimBy isGoSpace (ltrimBy isGoSpace l)

/-- The double-quote character, written numerically. -/
def dq : Char := Char.ofNat 34

/-- The single-quote character, written numerically. -/
def sq : Char := Char.ofNat 39

/-- Membership in the cutset of Go `strings.Trim(value, cutset)` for the
cutset holding the two quote characters. -/
def isQuoteCh (c : Char) : Bool := c = dq || c = sq

/-- `strings.Trim(value, cutset)` for the quote cutset: remove ALL leading
and trailing quote characters (single or double, in any mix). -/
def trimQuotes (l : List Char) : List Char := rtrimBy isQuoteCh (ltrimBy isQuoteCh l)

/-- Split at the first `=`, as `strings.SplitN(line, "=", 2)`: `none` when no
`=` occurs (Go then yields a single part and the line is skipped). -/
def breakEq : List Char → Option (List Char × List Char)
  | [] => none
  | c :: cs =>
    if c = '=' then some ([], cs)
    else
      match breakEq cs with
      | none => none
      | some (a, b) => some (c :: a, b)

/-- `strings.Split(s, sep)` for a one-character separator, empty parts kept. -/
def splitCh (c : Char) : List Char → List (List Char)
  | [] => [[]]
  | x :: xs =>
    if x = c then [] :: splitCh c xs
    else
      match splitCh c xs with
      | [] => [[x]]
      | h :: t => (x :: h) :: t

/-- The loop body of `Loader.loadKeyValue` for one raw line: trim, skip blank
lines and lines starting with `#`, split at the first `=`, trim both sides,
strip surrounding quotes from the value, store under the uppercased key. -/
def kvLine (t : Table) (raw : List Char) : Table :=
  let line := trimList raw
  match line with
  | [] => t
  | c :: _ =>
    if c = '#' then t
    else
      match breakEq line with
      | none => t
      | some (k, v) =>
        tinsert t (goToUpper (String.mk (trimList k))) (String.mk (trimQuotes (trimList v)))

/-- `Loader.loadKeyValue` of pkg/config/config.go acting on the file-value
table (the receiver's only state it touches); it never returns an error. -/
def goLoadKeyValueT (t : Table) (data : String) : Table :=
  (splitCh '\n' data.data).foldl kvLine t

/-- A decoded generic JSON/YAML value, as produced by the external decoders:
a leaf carries the `fmt.Sprintf("%v", val)` rendering of the non-map value
(string, number, boolean, array, ...); an object carries its fields. -/
inductive GoVal where
  | leaf (rendering : String)
  | obj (fields : List (String × GoVal))

/-- `Loader.flattenMap` of pkg/config/config.go: dot-join nested keys,
uppercase, and store each leaf's rendering. -/
def flattenMap (pre : String) (m : List (String × GoVal)) (t : Table) : Table :=
  match m with
  | [] => t
  | (k, v) :: rest =>
    let key := if pre ≠ "" then pre ++ "." ++ k else k
    match v with
    | GoVal.leaf r => flattenMap pre rest (tinsert t (goToUpper key) r)
    | GoVal.obj fields => flattenMap pre rest (flattenMap key fields t)

/-- Modelled from the spec: the external JSON and YAML decoders
(`encoding/json`, `gopkg.in/yaml.v3` are not in src/) produce a generic
string-keyed tree on success, or fail; a decoder is a parameter of this type. -/
def Decoder : Type := String → Option (List (String × GoVal))

/-- Modelled from the spec: the file system read primitive `os.ReadFile`;
`none` is a missing or unreadable path. File bytes are carried as `String`. -/
def FS : Type := String → Option String

/-- `Loader.loadJSON` acting on the file-value table: decode, then flatten;
on decoder failure the table is untouched. -/
def loadJSONT (jdec : Decoder) (t : Table) (data : String) : Except String Unit × Table :=
  match jdec data with
  | none => (Except.error "failed to parse JSON", t)
  | some obj => (Except.ok (), flattenMap "" obj t)

/-- `Loader.loadYAML` acting on the file-value table. -/
def loadYAMLT (ydec : Decoder) (t : Table) (data : String) : Except String Unit × Table :=
  match ydec data with
  | none => (Except.error "failed to parse YAML", t)
  | some obj => (Except.ok (), flattenMap "" obj t)

/-- The extension computed by `Loader.LoadFile`: Go's
`path[strings.LastIndex(path, ".")+1:]` lowercased. When the path has no
period, `LastIndex` is `-1` and the slice is the whole path. -/
def extOf (path : String) : String :=
  goToLower (String.mk ((path.data.reverse.takeWhile fun c => c ≠ '.').reverse))

/-- `Loader.LoadFile` of pkg/config/config.go: read, dispatch on the
extension, in the default case try JSON, then YAML, then key-value. Returns
the error outcome and the resulting loader. -/
def goLoadFile (jdec ydec : Decoder) (fs : FS) (l : Loader) (path : String) :
    Except String Unit × Loader :=
  match fs path with
  | none => (Except.error "failed to read config file", l)
  | some data =>
    let ext := extOf path
    let run : Except String Unit × Table :=
      if ext = "json" then loadJSONT jdec l.values data
      else if ext = "yaml" ∨ ext = "yml" then loadYAMLT ydec l.values data
      else if ext = "env" ∨ ext = "txt" ∨ ext = "conf" then
        (Except.ok (), goLoadKeyValueT l.values data)
      else
        match jdec data with
        | some obj => (Except.ok (), flattenMap "" obj l.values)
        | none =>
          match ydec data with
          | some obj => (Except.ok (), flattenMap "" obj l.values)
          | none => (Except.ok (), goLoadKeyValueT l.values data)
    (run.1, { l with values := run.2 })

/-- `strconv.ParseBool`: the exact literals Go accepts. -/
def goParseBool (s : String) : Option Bool :=
  if s = "1" ∨ s = "t" ∨ s = "T" ∨ s = "TRUE" ∨ s = "true" ∨ s = "True" then some true
  else if s = "0" ∨ s = "f" ∨ s = "F" ∨ s = "FALSE" ∨ s = "false" ∨ s = "False" then some false
  else none

/-- `strconv.ParseUint(s, 10, 64)`: decimal digits only, no sign, 64-bit range. -/
def goParseUintStr (s : String) : Option Nat :=
  match digitsToNat s.data with
  | none => none
  | some n => if n ≤ 2 ^ 64 - 1 then some n else none

/-- Syntax of `strconv.ParseFloat` on its decimal and inf/nan forms (hex
floats and underscore separators omitted; no claim exercises float fields).
Only acceptance matters to the binder, never the numeric value. -/
def goParseFloatOk (s : String) : Bool :=
  let l :=
    match s.data with
    | c :: rest => if c = '+' ∨ c = '-' then rest else s.data
    | [] => []
  let low := goToLower (String.mk l)
  if low = "inf" ∨ low = "infinity" ∨ low = "nan" then true
  else
    let ip := l.takeWhile Char.isDigit
    let r1 := l.drop ip.length
    let (fp, r2) :=
      match r1 with
      | '.' :: r1' => (r1'.takeWhile Char.isDigit, r1'.drop (r1'.takeWhile Char.isDigit).length)
      | _ => ([], r1)
    if ip = [] ∧ fp = [] then false
    else
      match r2 with
      | [] => true
      | e :: r3 =>
        if e = 'e' ∨ e = 'E' then
          let r4 :=
            match r3 with
            | c :: rest => if c = '+' ∨ c = '-' then rest else r3
            | [] => []
          r4 ≠ [] ∧ r4.all Char.isDigit
        else false

/-- The reflect kind of a bindable struct field, as dispatched by
`Loader.setField` and the duration branch of `Loader.Load`. -/
inductive FieldKind where
  | str | int | uint | bool | float | duration
deriving DecidableEq

/-- One struct field's metadata as `Loader.Load` reads it through reflection:
name, the four recognized tags, kind, and settability. -/
structure GoField where
  name : String
  tagConfig : String
  tagEnv : String
  tagDefault : String
  tagFile : String
  kind : FieldKind
  settable : Bool

/-- A value written into a struct field. Float fields keep their accepted
literal; all other kinds carry the coerced value. -/
inductive FieldVal where
  | vstr (s : String)
  | vint (i : Int)
  | vuint (n : Nat)
  | vbool (b : Bool)
  | vfloat (lit : String)
  | vdur (ns : Int)
deriving DecidableEq

/-- `Loader.setField` of pkg/config/config.go. Duration-typed fields never
reach it (the `Load` loop intercepts them); if one did, Go's `Int64` case
would apply a plain integer parse, which is what the `duration` arm does. -/
def goSetField (kind : FieldKind) (value : String) : Except String FieldVal :=
  match kind with
  | FieldKind.str => Except.ok (FieldVal.vstr value)
  | FieldKind.int =>
    match goAtoi value with
    | some i => Except.ok (FieldVal.vint i)
    | none => Except.error "strconv.ParseInt"
  | FieldKind.duration =>
    match goAtoi value with
    | some i => Except.ok (FieldVal.vint i)
    | none => Except.error "strconv.ParseInt"
  | FieldKind.uint =>
    match goParseUintStr value with
    | some n => Except.ok (FieldVal.vuint n)
    | none => Except.error "strconv.ParseUint"
  | FieldKind.bool =>
    match goParseBool value with
    | some b => Except.ok (FieldVal.vbool b)
    | none =>
      let v := goToLower value
      Except.ok (FieldVal.vbool (v = "yes" || v = "on" || v = "1"))
  | FieldKind.float =>
    if goParseFloatOk value then Except.ok (FieldVal.vfloat value)
    else Except.error "strconv.ParseFloat"

/-- The environment-variable name `Load` derives for one field: the `env`
tag when present, else the prefix-qualified uppercased config key. (Go's
`!= ""` conditions appear here with the branches swapped accordingly.) -/
def fieldEnvKey (p : String) (f : GoField) (configKey : String) : String :=
  if f.tagEnv = "" then
    if p = "" then goToUpper configKey else p ++ "_" ++ goToUpper configKey
  else f.tagEnv

/-- The priority resolution `Load` performs inline for one non-duration
field: non-empty environment variable, else file-table entry for the
uppercased config key, else the `default` tag literal. -/
def fieldResolve (l : Loader) (env : Env) (f : GoField) (configKey : String) : String :=
  if env (fieldEnvKey l.pfx f configKey) = "" then
    match l.values (goToUpper configKey) with
    | some fv => fv
    | none => f.tagDefault
  else env (fieldEnvKey l.pfx f configKey)

/-- `Loader.Load` of pkg/config/config.go over the field list of the target
struct (the pointer-to-struct check lives outside this model). Returns the
final loader and the in-order field assignments, or the first error. Go's
`!= ""` conditions are written as `= ""` with the branches swapped. -/
def goLoad (jdec ydec : Decoder) (fs : FS) (env : Env) :
    Loader → List GoField → Except String (Loader × List (String × FieldVal))
  | l, [] => Except.ok (l, [])
  | l, f :: rest =>
    if f.settable = false then goLoad jdec ydec fs env l rest
    else
      let l1 := if f.tagFile = "" then l else (goLoadFile jdec ydec fs l f.tagFile).2
      let configKey := if f.tagConfig = "" then goToLower f.name else f.tagConfig
      if f.kind = FieldKind.duration then
        if f.tagDefault = "" then
          let p := goDuration l1 env configKey 0
          match goLoad jdec ydec fs env p.2 rest with
          | Except.error e => Except.error e
          | Except.ok (lr, asg) => Except.ok (lr, (f.name, FieldVal.vdur p.1) :: asg)
        else
          match goParseDuration f.tagDefault with
          | none => Except.error ("failed to parse default duration for field " ++ f.name)
          | some dd =>
            let l2 := { l1 with values := tinsert l1.values (goToUpper configKey) f.tagDefault }
            let p := goDuration l2 env configKey dd
            match goLoad jdec ydec fs env p.2 rest with
            | Except.error e => Except.error e
            | Except.ok (lr, asg) => Except.ok (lr, (f.name, FieldVal.vdur p.1) :: asg)
      else
        let value := fieldResolve l1 env f configKey
        if value = "" then goLoad jdec ydec fs env l1 rest
        else
          match goSetField f.kind value with
          | Except.error e => Except.error ("failed to set field " ++ f.name ++ ": " ++ e)
          | Except.ok fv =>
            match goLoad jdec ydec fs env l1 rest with
            | Except.error e => Except.error e
            | Except.ok (lr, asg) => Except.ok (lr, (f.name, fv) :: asg)

/-- The tag-directed file loads of a `Load` call performed alone: the loader
state produced by running only the `file:` tag loads of the settable fields,
in declaration order. -/
def goFileLoads (jdec ydec : Decoder) (fs : FS) : Loader → List GoField → Loader
  | l, [] => l
  | l, f :: rest =>
    if f.settable = false then goFileLoads jdec ydec fs l rest
    else
      goFileLoads jdec ydec fs
        (if f.tagFile = "" then l else (goLoadFile jdec ydec fs l f.tagFile).2) rest

theorem dropWhile_mid {p : Char → Bool} {x : Char} (hx : p x = false) (a b : List Char) :
    List.dropWhile p (a ++ x :: b) = List.dropWhile p a ++ x :: b := by
  induction a with
  | nil => simp [List.dropWhile_cons, hx]
  | cons c cs ih =>
    by_cases hc : p c = true
    · simpa [List.dropWhile_cons, hc] using ih
    · simp [List.dropWhile_cons, hc]

theorem takeWhile_mid {p : Char → Bool} {x : Char} (hx : p x = false)
    {a : List Char} (ha : ∀ y ∈ a, p y = true) (b : List Char) :
    List.takeWhile p (a ++ x :: b) = a := by
  induction a with
  | nil => simp [List.takeWhile_cons, hx]
  | cons c cs ih =>
    have hc : p c = true := ha c (by simp)
    simp only [List.cons_append, List.takeWhile_cons, hc, if_true]
    rw [ih (fun y hy => ha y (by simp [hy]))]

/-- C1: for every key, file-value table and environment, `String(key, D)`
returns the non-empty environment variable `buildKey(prefix, UPPER(key))`
first; failing that, the file-table entry for `UPPER(key)`; failing that, the
default `D`. -/
theorem c1_string_priority (l : Loader) (env : Env) (key D : String) :
    (env (buildKey l.pfx (goToUpper key)) ≠ "" →
      goString l env key D = env (buildKey l.pfx (goToUpper key))) ∧
    (env (buildKey l.pfx (goToUpper key)) = "" →
      ∀ F, l.values (goToUpper key) = some F → goString l env key D = F) ∧
    (env (buildKey l.pfx (goToUpper key)) = "" →
      l.values (goToUpper key) = none → goString l env key D = D) := by
  refine ⟨fun h => ?_, fun h F hF => ?_, fun h hN => ?_⟩
  · simp [goString, h]
  · simp [goString, h, hF]
  · simp [goString, h, hN]

/-- Witness for C1 at a concrete loader, environment and key. -/
theorem c1_string_priority_witness :
    goString { values := tinsert emptyTable "K" "F", durations := emptyDur, pfx := "P" }
        (fun n => if n = "P_K" then "E" else "") "k" "D" = "E" ∧
    goString { values := tinsert emptyTable "K" "F", durations := emptyDur, pfx := "P" }
        (fun _ => "") "k" "D" = "F" ∧
    goString (goNew "P") (fun _ => "") "k" "D" = "D" := by
  refine ⟨?_, ?_, ?_⟩
  · exact (c1_string_priority _ _ "k" "D").1 (by decide)
  · exact (c1_string_priority _ _ "k" "D").2.1 rfl "F" (by decide)
  · exact (c1_string_priority (goNew "P") _ "k" "D").2.2 rfl rfl

/-- C3: `Required(key)` resolves exactly as `String(key, "")`; a non-empty
resolution is returned, an empty one is the fatal path whose message names
the prefix-qualified, uppercased environment-variable name. -/
theorem c3_required (l : Loader) (env : Env) (key : String) :
    (goString l env key "" ≠ "" → goRequired l env key = Except.ok (goString l env key "")) ∧
    (goString l env key "" = "" →
      goRequired l env key =
        Except.error
          ("required configuration " ++ buildKey l.pfx (goToUpper key) ++ " is not set")) := by
  refine ⟨fun h => ?_, fun h => ?_⟩
  · simp [goRequired, h]
  · simp [goRequired, h]

/-- Witness for C3: a set key is returned, an unset key is fatal with the
message naming `APP_PORT`. -/
theorem c3_required_witness :
    goRequired { values := tinsert emptyTable "K" "V", durations := emptyDur, pfx := "" }
        (fun _ => "") "k" = Except.ok "V" ∧
    goRequired (goNew "APP") (fun _ => "") "port" =
      Except.error "required configuration APP_PORT is not set" := by
  constructor
  · exact (c3_required _ _ "k").1 (by decide)
  · exact (c3_required (goNew "APP") _ "port").2 rfl

/-- C4: a failed `LoadFile` (missing/unreadable path) returns an error and
leaves the loader unchanged, so every accessor resolves as before the call. -/
theorem c4_loadfile_missing (jdec ydec : Decoder) (fs : FS) (l : Loader) (path : String)
    (h : fs path = none) :
    goLoadFile jdec ydec fs l path = (Except.error "failed to read config file", l) ∧
    (∀ env key D, goString (goLoadFile jdec ydec fs l path).2 env key D = goString l env key D) ∧
    (∀ env key D, goInt (goLoadFile jdec ydec fs l path).2 env key D = goInt l env key D) ∧
    (∀ env key D, goBool (goLoadFile jdec ydec fs l path).2 env key D = goBool l env key D) ∧
    (∀ env key D,
      goDuration (goLoadFile jdec ydec fs l path).2 env key D = goDuration l env key D) := by
  have hL : goLoadFile jdec ydec fs l path = (Except.error "failed to read config file", l) := by
    simp [goLoadFile, h]
  exact ⟨hL, fun _ _ _ => by rw [hL], fun _ _ _ => by rw [hL], fun _ _ _ => by rw [hL],
    fun _ _ _ => by rw [hL]⟩

/-- Witness for C4 on a file system with no readable files. -/
theorem c4_loadfile_missing_witness :
    goLoadFile (fun _ => none) (fun _ => none) (fun _ => none) (goNew "A") "cfg.json" =
      (Except.error "failed to read config file", goNew "A") ∧
    goString (goLoadFile (fun _ => none) (fun _ => none) (fun _ => none) (goNew "A") "cfg.json").2
      (fun _ => "") "k" "d" = "d" := by
  constructor
  · exact (c4_loadfile_missing _ _ _ (goNew "A") "cfg.json" rfl).1
  · rw [(c4_loadfile_missing (fun _ => none) (fun _ => none) _ (goNew "A") "cfg.json" rfl).2.1]
    rfl

/-- C5: the boolean truth table of `Bool(key, D)`: the four case-insensitive
true literals give `true`, the four false literals give `false`, any other
non-empty resolved string gives the supplied default. -/
theorem c5_bool_truth_table (l : Loader) (env : Env) (key : String) (D : Bool) :
    ((goToLower (goString l env key "") = "true" ∨ goToLower (goString l env key "") = "1" ∨
        goToLower (goString l env key "") = "yes" ∨ goToLower (goString l env key "") = "on") →
      goBool l env key D = true) ∧
    ((goToLower (goString l env key "") = "false" ∨ goToLower (goString l env key "") = "0" ∨
        goToLower (goString l env key "") = "no" ∨ goToLower (goString l env key "") = "off") →
      goBool l env key D = false) ∧
    (goString l env key "" ≠ "" →
      ¬(goToLower (goString l env key "") = "true" ∨ goToLower (goString l env key "") = "1" ∨
          goToLower (goString l env key "") = "yes" ∨ goToLower (goString l env key "") = "on" ∨
          goToLower (goString l env key "") = "false" ∨ goToLower (goString l env key "") = "0" ∨
          goToLower (goString l env key "") = "no" ∨ goToLower (goString l env key "") = "off") →
      goBool l env key D = D) := by
  refine ⟨fun h => ?_, fun h => ?_, fun hne h => ?_⟩
  · have hne : goString l env key "" ≠ "" := by
      intro he
      rw [he] at h
      revert h
      decide
    simp only [goBool]
    rw [if_neg hne, if_pos h]
  · have hne : goString l env key "" ≠ "" := by
      intro he
      rw [he] at h
      revert h
      decide
    have hnt : ¬(goToLower (goString l env key "") = "true" ∨
        goToLower (goString l env key "") = "1" ∨
        goToLower (goString l env key "") = "yes" ∨
        goToLower (goString l env key "") = "on") := by
      rcases h with h | h | h | h <;> rw [h] <;> decide
    simp only [goBool]
    rw [if_neg hne, if_neg hnt, if_pos h]
  · simp only [goBool]
    rw [if_neg hne, if_neg (fun hx => h (by tauto)), if_neg (fun hx => h (by tauto))]

/-- Witness for C5: `"TRUE"` resolves true, `"off"` false, `"banana"` the
default. -/
theorem c5_bool_truth_table_witness :
    goBool { values := tinsert emptyTable "K" "TRUE", durations := emptyDur, pfx := "" }
      (fun _ => "") "K" false = true ∧
    goBool { values := tinsert emptyTable "K" "off", durations := emptyDur, pfx := "" }
      (fun _ => "") "K" true = false ∧
    goBool { values := tinsert emptyTable "K" "banana", durations := emptyDur, pfx := "" }
      (fun _ => "") "K" true = true := by
  refine ⟨?_, ?_, ?_⟩
  · exact (c5_bool_truth_table _ _ "K" false).1 (by decide)
  · exact (c5_bool_truth_table _ _ "K" true).2.1 (by decide)
  · exact (c5_bool_truth_table _ _ "K" true).2.2 (by decide) (by decide)

/-- C9: `String` resolves identically for any casings of the caller key that
agree after uppercasing, and a value stored under one casing is found by a
lookup under another (keys are normalized to uppercase on both paths). -/
theorem c9_case_insensitive (l : Loader) (env : Env) (k1 k2 D v : String)
    (h : goToUpper k1 = goToUpper k2) :
    goString l env k1 D = goString l env k2 D ∧
    (env (buildKey l.pfx (goToUpper k2)) = "" →
      goString { l with values := tinsert l.values (goToUpper k1) v } env k2 D = v) := by
  constructor
  · simp only [goString, h]
  · intro he
    simp [goString, he, tinsert, h]

/-- Witness for C9: `"port"` and `"PORT"` resolve identically, and a store
under `UPPER("port")` is found by a `"PoRt"` lookup. -/
theorem c9_case_insensitive_witness :
    goString { values := tinsert emptyTable "PORT" "9", durations := emptyDur, pfx := "" }
        (fun _ => "") "port" "d" =
      goString { values := tinsert emptyTable "PORT" "9", durations := emptyDur, pfx := "" }
        (fun _ => "") "PORT" "d" ∧
    goString { values := tinsert emptyTable "PORT" "9", durations := emptyDur, pfx := "" }
        (fun _ => "") "PoRt" "d" = "9" := by
  constructor
  · exact (c9_case_insensitive _ _ "port" "PORT" "d" "9" (by decide)).1
  · have h2 := (c9_case_insensitive
      { values := emptyTable, durations := emptyDur, pfx := "" }
      (fun _ => "") "port" "PoRt" "d" "9" (by decide)).2 rfl
    simpa [tinsert, emptyTable] using h2

/-- C10: coercion of a boolean struct field never fails: when the standard
`strconv.ParseBool` fails, the field becomes `true` exactly for lowercased
`"yes"`, `"on"`, `"1"`, and `false` for every other unrecognized value,
whereas the `Bool` accessor returns the caller default there. -/
theorem c10_setfield_bool (value : String) :
    (∃ b, goSetField FieldKind.bool value = Except.ok (FieldVal.vbool b)) ∧
    (goParseBool value = none →
      goSetField FieldKind.bool value =
        Except.ok (FieldVal.vbool
          (goToLower value = "yes" || goToLower value = "on" || goToLower value = "1"))) ∧
    (goParseBool value = none →
      ¬(goToLower value = "true" ∨ goToLower value = "1" ∨ goToLower value = "yes" ∨
          goToLower value = "on" ∨ goToLower value = "false" ∨ goToLower value = "0" ∨
          goToLower value = "no" ∨ goToLower value = "off") →
      value ≠ "" →
      goSetField FieldKind.bool value = Except.ok (FieldVal.vbool false) ∧
      ∀ D, goBool { values := tinsert emptyTable "K" value, durations := emptyDur, pfx := "" }
          (fun _ => "") "K" D = D) := by
  refine ⟨?_, fun h => ?_, fun h hn hne => ?_⟩
  · simp only [goSetField]
    cases hp : goParseBool value with
    | some b => exact ⟨b, rfl⟩
    | none => exact ⟨_, rfl⟩
  · simp [goSetField, h]
  · constructor
    · have h1 : goToLower value ≠ "yes" := fun hx => hn (by tauto)
      have h2 : goToLower value ≠ "on" := fun hx => hn (by tauto)
      have h3 : goToLower value ≠ "1" := fun hx => hn (by tauto)
      simp [goSetField, h, h1, h2, h3]
    · intro D
      have hk : goToUpper "K" = "K" := rfl
      have hval : goString
          { values := tinsert emptyTable "K" value, durations := emptyDur, pfx := "" }
          (fun _ => "") "K" "" = value := by
        simp [goString, tinsert, buildKey, hk]
      simp only [goBool, hval]
      rw [if_neg hne, if_neg (fun hx => hn (by tauto)), if_neg (fun hx => hn (by tauto))]

/-- Witness for C10 at `"banana"`: the struct binder writes `false`, the
accessor keeps the default. -/
theorem c10_setfield_bool_witness :
    goSetField FieldKind.bool "banana" = Except.ok (FieldVal.vbool false) ∧
    goBool { values := tinsert emptyTable "K" "banana", durations := emptyDur, pfx := "" }
      (fun _ => "") "K" true = true := by
  have h := (c10_setfield_bool "banana").2.2 (by decide) (by decide) (by decide)
  exact ⟨h.1, h.2 true⟩

/-- C2 counterexample: the claim fails on `Duration` of the pkg `Loader`.
Load `timeout=1s`, call `Duration` (which caches 1s), load `timeout=garbage`
over it: the resolved string is now the unparseable `"garbage"`, yet
`Duration("timeout", 5s)` returns the cached 1s, not the default 5s. -/
theorem c2_counterexample :
    (let fsx : FS := fun p =>
      if p = "a.env" then some "timeout=1s"
      else if p = "b.env" then some "timeout=garbage" else none
     let l1 := (goLoadFile (fun _ => none) (fun _ => none) fsx (goNew "") "a.env").2
     let l2 := (goDuration l1 (fun _ => "") "timeout" 0).2
     let l3 := (goLoadFile (fun _ => none) (fun _ => none) fsx l2 "b.env").2
     goString l3 (fun _ => "") "timeout" "" = "garbage" ∧
     goParseDuration "garbage" = none ∧
     (goDuration l3 (fun _ => "") "timeout" 5000000000).1 = 1000000000 ∧
     ((goDuration l3 (fun _ => "") "timeout" 5000000000).1 = 5000000000 → False)) := by
  decide

/-- C2 amended: `Int` and `Bool` always fall back to the caller default on a
non-empty unparseable resolved string; `Duration` does so too provided no
cached duration exists for the uppercased key (on a cache hit it returns the
cached value instead), and a failed parse adds no cache entry. -/
theorem c2_amended :
    (∀ (l : Loader) (env : Env) (key : String) (D : Int),
      goString l env key "" ≠ "" → goAtoi (goString l env key "") = none →
      goInt l env key D = D) ∧
    (∀ (l : Loader) (env : Env) (key : String) (D : Bool),
      goString l env key "" ≠ "" →
      ¬(goToLower (goString l env key "") = "true" ∨ goToLower (goString l env key "") = "1" ∨
          goToLower (goString l env key "") = "yes" ∨ goToLower (goString l env key "") = "on" ∨
          goToLower (goString l env key "") = "false" ∨ goToLower (goString l env key "") = "0" ∨
          goToLower (goString l env key "") = "no" ∨ goToLower (goString l env key "") = "off") →
      goBool l env key D = D) ∧
    (∀ (l : Loader) (env : Env) (key : String) (D : Int),
      l.durations (goToUpper key) = none →
      goString l env (goToUpper key) "" ≠ "" →
      goParseDuration (goString l env (goToUpper key) "") = none →
      (goDuration l env key D).1 = D ∧ (goDuration l env key D).2 = l) := by
  refine ⟨fun l env key D hne hA => ?_, fun l env key D hne h => ?_,
    fun l env key D hc hne hp => ?_⟩
  · simp [goInt, hne, hA]
  · simp only [goBool]
    rw [if_neg hne, if_neg (fun hx => h (by tauto)), if_neg (fun hx => h (by tauto))]
  · simp [goDuration, hc, hne, hp]

/-- Witness for the amended C2 at unparseable values with an empty cache. -/
theorem c2_amended_witness :
    goInt { values := tinsert emptyTable "K" "not_a_number", durations := emptyDur, pfx := "" }
      (fun _ => "") "K" 42 = 42 ∧
    goBool { values := tinsert emptyTable "K" "banana", durations := emptyDur, pfx := "" }
      (fun _ => "") "K" false = false ∧
    (goDuration { values := tinsert emptyTable "K" "garbage", durations := emptyDur, pfx := "" }
      (fun _ => "") "K" 5000000000).1 = 5000000000 := by
  refine ⟨?_, ?_, ?_⟩
  · exact c2_amended.1 _ _ "K" 42 (by decide) (by decide)
  · exact c2_amended.2.1 _ _ "K" false (by decide) (by decide)
  · exact (c2_amended.2.2 _ _ "K" 5000000000 rfl (by decide) (by decide)).1

/-- C7 counterexample: the path `"json"` does not end in `".json"` and has no
extension, yet `LoadFile` forces the JSON parser on it (Go's
`LastIndex(path, ".")` is `-1`, so the "extension" is the whole name): with
content `"A=B"` and a failing JSON decoder it errors, although the claimed
auto-detect chain would have succeeded via the key-value parser. -/
theorem c7_counterexample :
    extOf "json" = "json" ∧
    ("json".endsWith ".json") = false ∧
    (goLoadFile (fun _ => none) (fun _ => none)
        (fun p => if p = "json" then some "A=B" else none) (goNew "") "json").1 =
      Except.error "failed to parse JSON" ∧
    goLoadKeyValueT emptyTable "A=B" "A" = some "B" := by
  refine ⟨rfl, by decide, rfl, by decide⟩

/-- C7 amended: the dispatch key is the lowercased segment after the LAST
period of the path — the whole lowercased name when no period occurs — and
`LoadFile` forces the JSON / YAML / key-value parser when that key is
`json` / `yaml`,`yml` / `env`,`txt`,`conf` respectively; for any other key it
tries JSON, then YAML, then falls back to the (never-failing) key-value
parser, keeping the first success. -/
theorem c7_amended (jdec ydec : Decoder) (fs : FS) (l : Loader) (path data : String)
    (h : fs path = some data) :
    (¬ '.' ∈ path.data → extOf path = goToLower path) ∧
    (∀ a b, path.data = a ++ '.' :: b → ¬ '.' ∈ b →
      extOf path = goToLower (String.mk b)) ∧
    (extOf path = "json" →
      goLoadFile jdec ydec fs l path =
        ((loadJSONT jdec l.values data).1,
          { l with values := (loadJSONT jdec l.values data).2 })) ∧
    ((extOf path = "yaml" ∨ extOf path = "yml") →
      goLoadFile jdec ydec fs l path =
        ((loadYAMLT ydec l.values data).1,
          { l with values := (loadYAMLT ydec l.values data).2 })) ∧
    ((extOf path = "env" ∨ extOf path = "txt" ∨ extOf path = "conf") →
      goLoadFile jdec ydec fs l path =
        (Except.ok (), { l with values := goLoadKeyValueT l.values data })) ∧
    (¬(extOf path = "json" ∨ extOf path = "yaml" ∨ extOf path = "yml" ∨
        extOf path = "env" ∨ extOf path = "txt" ∨ extOf path = "conf") →
      (∀ obj, jdec data = some obj →
        goLoadFile jdec ydec fs l path =
          (Except.ok (), { l with values := flattenMap "" obj l.values })) ∧
      (jdec data = none → ∀ obj, ydec data = some obj →
        goLoadFile jdec ydec fs l path =
          (Except.ok (), { l with values := flattenMap "" obj l.values })) ∧
      (jdec data = none → ydec data = none →
        goLoadFile jdec ydec fs l path =
          (Except.ok (), { l with values := goLoadKeyValueT l.values data }))) := by
  have hj : ∀ hext : extOf path = "json",
      goLoadFile jdec ydec fs l path =
        ((loadJSONT jdec l.values data).1,
          { l with values := (loadJSONT jdec l.values data).2 }) := by
    intro hext
    simp [goLoadFile, h, hext, loadJSONT]
  refine ⟨fun hnd => ?_, fun a b hab hnb => ?_, hj, fun hext => ?_, fun hext => ?_, fun hne => ?_⟩
  · have : path.data.reverse.takeWhile (fun c => c ≠ '.') = path.data.reverse := by
      rw [List.takeWhile_eq_self_iff]
      intro x hx
      simp only [decide_eq_true_eq]
      intro hxe
      exact hnd (by rw [← hxe]; exact List.mem_reverse.mp hx)
    simp only [extOf, this, List.reverse_reverse]
  · have hrev : path.data.reverse = b.reverse ++ '.' :: a.reverse := by
      rw [hab]; simp
    have hall : ∀ y ∈ b.reverse, (fun c => decide (c ≠ '.')) y = true := by
      intro y hy
      simp only [decide_eq_true_eq]
      intro hye
      exact hnb (by rw [← hye]; exact List.mem_reverse.mp hy)
    have : path.data.reverse.takeWhile (fun c => c ≠ '.') = b.reverse := by
      rw [hrev]
      exact takeWhile_mid (by simp) hall _
    simp only [extOf, this, List.reverse_reverse]
  · rcases hext with hext | hext <;> simp [goLoadFile, h, hext, loadYAMLT]
  · rcases hext with hext | hext | hext <;> simp [goLoadFile, h, hext]
  · have h1 : extOf path ≠ "json" := fun hx => hne (by tauto)
    have h2 : extOf path ≠ "yaml" := fun hx => hne (by tauto)
    have h3 : extOf path ≠ "yml" := fun hx => hne (by tauto)
    have h4 : extOf path ≠ "env" := fun hx => hne (by tauto)
    have h5 : extOf path ≠ "txt" := fun hx => hne (by tauto)
    have h6 : extOf path ≠ "conf" := fun hx => hne (by tauto)
    refine ⟨fun obj hobj => ?_, fun hjn obj hobj => ?_, fun hjn hyn => ?_⟩
    · simp [goLoadFile, h, h1, h2, h3, h4, h5, h6, hobj]
    · simp [goLoadFile, h, h1, h2, h3, h4, h5, h6, hjn, hobj]
    · simp [goLoadFile, h, h1, h2, h3, h4, h5, h6, hjn, hyn]

/-- Witness for the amended C7: a `.json` path runs the JSON decoder and a
dotless unrecognized name falls back through the chain to key-value. -/
theorem c7_amended_witness :
    goLoadFile (fun _ => some [("port", GoVal.leaf "1")]) (fun _ => none)
        (fun _ => some "X") (goNew "") "conf.json" =
      ((loadJSONT (fun _ => some [("port", GoVal.leaf "1")]) (goNew "").values "X").1,
        { goNew "" with
          values := (loadJSONT (fun _ => some [("port", GoVal.leaf "1")]) (goNew "").values "X").2 }) ∧
    goLoadFile (fun _ => none) (fun _ => none) (fun _ => some "A=B") (goNew "") "noext" =
      (Except.ok (), { goNew "" with values := goLoadKeyValueT (goNew "").values "A=B" }) := by
  constructor
  · exact (c7_amended _ _ _ (goNew "") "conf.json" "X" rfl).2.2.1 (by decide)
  · exact ((c7_amended _ _ _ (goNew "") "noext" "A=B" rfl).2.2.2.2.2 (by decide)).2.2 rfl rfl

theorem rtrimBy_cons {p : Char → Bool} {c : Char} (hc : p c = false) (l : List Char) :
    rtrimBy p (c :: l) = c :: rtrimBy p l := by
  simp only [rtrimBy, List.reverse_cons]
  rw [show l.reverse ++ [c] = l.reverse ++ c :: [] from rfl, dropWhile_mid hc]
  simp

theorem ltrimBy_idem (p : Char → Bool) (l : List Char) :
    ltrimBy p (ltrimBy p l) = ltrimBy p l := by
  simp [ltrimBy, List.dropWhile_idempotent]

theorem rtrimBy_idem (p : Char → Bool) (l : List Char) :
    rtrimBy p (rtrimBy p l) = rtrimBy p l := by
  simp [rtrimBy, List.dropWhile_idempotent]

theorem rtrimBy_eq_nil_iff {p : Char → Bool} {l : List Char} :
    rtrimBy p l = [] ↔ ∀ x ∈ l, p x = true := by
  simp [rtrimBy, List.dropWhile_eq_nil_iff]

theorem rtrimBy_cons_pos {p : Char → Bool} {c : Char} (hc : p c = true) (l : List Char) :
    rtrimBy p (c :: l) = if rtrimBy p l = [] then [] else c :: rtrimBy p l := by
  simp only [rtrimBy, List.reverse_cons]
  rw [show l.reverse ++ [c] = l.reverse ++ c :: [] from rfl, List.dropWhile_append]
  by_cases hr : List.dropWhile p l.reverse = []
  · simp [hr, List.dropWhile_cons, hc]
  · have hie : (List.dropWhile p l.reverse).isEmpty = false := by
      simpa [List.isEmpty_iff] using hr
    have hr' : ¬ (List.dropWhile p l.reverse).reverse = [] := by simpa using hr
    simp [hie, hr']

theorem ltrim_rtrim_comm (p : Char → Bool) (l : List Char) :
    ltrimBy p (rtrimBy p l) = rtrimBy p (ltrimBy p l) := by
  induction l with
  | nil => rfl
  | cons c cs ih =>
    by_cases hc : p c = true
    · have hlt : ltrimBy p (c :: cs) = ltrimBy p cs := by
        simp [ltrimBy, List.dropWhile_cons, hc]
      rw [hlt, rtrimBy_cons_pos hc, ← ih]
      by_cases hr : rtrimBy p cs = []
      · simp [hr, ltrimBy]
      · rw [if_neg hr]
        simp [ltrimBy, List.dropWhile_cons, hc]
    · have hc' : p c = false := by simpa using hc
      have hlt : ltrimBy p (c :: cs) = c :: cs := by
        simp [ltrimBy, List.dropWhile_cons, hc']
      rw [hlt, rtrimBy_cons hc']
      simp [ltrimBy, List.dropWhile_cons, hc']

theorem trimList_ltrim (l : List Char) : trimList (ltrimBy isGoSpace l) = trimList l := by
  simp [trimList, ltrimBy_idem]

theorem trimList_rtrim (l : List Char) : trimList (rtrimBy isGoSpace l) = trimList l := by
  simp only [trimList]
  rw [ltrim_rtrim_comm, rtrimBy_idem]

theorem breakEq_none {l : List Char} (h : ¬ '=' ∈ l) : breakEq l = none := by
  induction l with
  | nil => rfl
  | cons c cs ih =>
    have hc : ¬ c = '=' := fun he => h (by simp [he])
    have ih' := ih (fun hm => h (by simp [hm]))
    simp [breakEq, hc, ih']

theorem breakEq_mid {a : List Char} (h : ¬ '=' ∈ a) (b : List Char) :
    breakEq (a ++ '=' :: b) = some (a, b) := by
  induction a with
  | nil => simp [breakEq]
  | cons c cs ih =>
    have hc : ¬ c = '=' := fun he => h (by simp [he])
    have ih' := ih (fun hm => h (by simp [hm]))
    simp [breakEq, hc, ih']

theorem trimList_break (k v : List Char) :
    trimList (k ++ '=' :: v) = ltrimBy isGoSpace k ++ '=' :: rtrimBy isGoSpace v := by
  have heq : isGoSpace '=' = false := by decide
  have h1 : ltrimBy isGoSpace (k ++ '=' :: v) = ltrimBy isGoSpace k ++ '=' :: v := by
    simp only [ltrimBy]
    exact dropWhile_mid heq _ _
  simp only [trimList, h1, rtrimBy, List.reverse_append, List.reverse_cons]
  rw [show v.reverse ++ ['='] ++ (ltrimBy isGoSpace k).reverse
      = v.reverse ++ '=' :: (ltrimBy isGoSpace k).reverse by simp,
    dropWhile_mid heq]
  simp

/-- C8 counterexample: Go `strings.Trim(value, cutset)` removes ALL
leading/trailing quote characters, not one layer: parsing `K=''x''` stores
`"x"`, not `"'x'"` as the claim asserts. -/
theorem c8_counterexample :
    goLoadKeyValueT emptyTable (String.mk ['K', '=', sq, sq, 'x', sq, sq]) "K" = some "x" ∧
    (goLoadKeyValueT emptyTable (String.mk ['K', '=', sq, sq, 'x', sq, sq]) "K" =
        some (String.mk [sq, 'x', sq]) →
      False) := by
  constructor
  · decide
  · decide

/-- C8 amended: the key-value parser folds over the newline-split lines;
blank lines and lines whose first non-whitespace character is `#` are
skipped, as is a line without `=`; any other line is split at the first `=`,
both sides whitespace-trimmed, ALL surrounding single/double quote characters
(not one layer) stripped from the value, and the pair stored under the
uppercased key. -/
theorem c8_amended :
    (∀ (t : Table) (data : String),
      goLoadKeyValueT t data = (splitCh '\n' data.data).foldl kvLine t) ∧
    (∀ (t : Table) (raw : List Char), trimList raw = [] → kvLine t raw = t) ∧
    (∀ (t : Table) (raw : List Char),
      (ltrimBy isGoSpace raw).head? = some '#' → kvLine t raw = t) ∧
    (∀ (t : Table) (raw : List Char), ¬ '=' ∈ trimList raw → kvLine t raw = t) ∧
    (∀ (t : Table) (k v : List Char), ¬ '=' ∈ k →
      (ltrimBy isGoSpace k).head? ≠ some '#' →
      kvLine t (k ++ '=' :: v) =
        tinsert t (goToUpper (String.mk (trimList k)))
          (String.mk (trimQuotes (trimList v)))) := by
  refine ⟨fun t data => rfl, fun t raw h => by simp [kvLine, h], fun t raw hh => ?_,
    fun t raw hne => ?_, fun t k v hk hh => ?_⟩
  · obtain ⟨rest, hr⟩ : ∃ rest, ltrimBy isGoSpace raw = '#' :: rest := by
      cases hl : ltrimBy isGoSpace raw with
      | nil => rw [hl] at hh; simp at hh
      | cons c cs =>
        rw [hl] at hh
        simp only [List.head?_cons, Option.some_inj] at hh
        exact ⟨cs, by rw [hh]⟩
    have ht : trimList raw = '#' :: rtrimBy isGoSpace rest := by
      simp only [trimList, hr]
      exact rtrimBy_cons (by decide) rest
    simp [kvLine, ht]
  · cases ht : trimList raw with
    | nil => simp [kvLine, ht]
    | cons c cs =>
      by_cases hc : c = '#'
      · simp [kvLine, ht, hc]
      · have hb : breakEq (c :: cs) = none := breakEq_none (by rw [← ht]; exact hne)
        simp [kvLine, ht, hc, hb]
  · have ht := trimList_break k v
    have hkl : ¬ '=' ∈ ltrimBy isGoSpace k :=
      fun hm => hk ((List.dropWhile_sublist _).mem hm)
    have step : kvLine t (k ++ '=' :: v) =
        tinsert t (goToUpper (String.mk (trimList (ltrimBy isGoSpace k))))
          (String.mk (trimQuotes (trimList (rtrimBy isGoSpace v)))) := by
      cases hl : ltrimBy isGoSpace k with
      | nil =>
        rw [hl] at ht
        have hb : breakEq ('=' :: rtrimBy isGoSpace v) = some ([], rtrimBy isGoSpace v) := by
          simp [breakEq]
        simp [kvLine, ht, hb, hl]
      | cons c cs =>
        have hch : ¬ c = '#' := by
          rw [hl] at hh
          exact fun he => hh (by simp [he])
        have hb : breakEq ((c :: cs) ++ '=' :: rtrimBy isGoSpace v)
            = some (c :: cs, rtrimBy isGoSpace v) :=
          breakEq_mid (by rw [← hl]; exact hkl) _
        rw [hl] at ht
        simp only [List.cons_append] at ht hb
        simp [kvLine, ht, hch, hb, hl]
    rw [step, trimList_ltrim, trimList_rtrim]

/-- Witness for the amended C8: a quoted, padded line stores a trimmed
unquoted value under the uppercased key; comment and blank lines are skipped. -/
theorem c8_amended_witness :
    kvLine emptyTable (" key ".data ++ '=' :: (" Val ".data)) =
      tinsert emptyTable "KEY" "Val" ∧
    kvLine emptyTable "  # note".data = emptyTable ∧
    kvLine emptyTable "   ".data = emptyTable ∧
    kvLine emptyTable " nopair ".data = emptyTable := by
  refine ⟨?_, ?_, ?_, ?_⟩
  · exact c8_amended.2.2.2.2 emptyTable (" key ".data) (" Val ".data) (by decide) (by decide)
  · exact c8_amended.2.2.1 emptyTable _ (by decide)
  · exact c8_amended.2.1 emptyTable _ (by decide)
  · exact c8_amended.2.2.2.1 emptyTable _ (by decide)

theorem goDuration_values (l : Loader) (env : Env) (k : String) (d : Int) :
    (goDuration l env k d).2.values = l.values := by
  cases hc : l.durations (goToUpper k) with
  | some c => simp [goDuration, hc]
  | none =>
    by_cases hv : goString l env (goToUpper k) "" = ""
    · simp [goDuration, hc, hv]
    · cases hp : goParseDuration (goString l env (goToUpper k) "") with
      | none => simp [goDuration, hc, hv, hp]
      | some d' => simp [goDuration, hc, hv, hp]

theorem goLoadFile_values_congr (jdec ydec : Decoder) (fs : FS) (path : String)
    {l1 l2 : Loader} (h : l1.values = l2.values) :
    (goLoadFile jdec ydec fs l1 path).2.values = (goLoadFile jdec ydec fs l2 path).2.values := by
  cases hf : fs path with
  | none => simp [goLoadFile, hf, h]
  | some data => simp [goLoadFile, hf, h]

theorem goFileLoads_values_congr (jdec ydec : Decoder) (fs : FS) (fields : List GoField) :
    ∀ {l1 l2 : Loader}, l1.values = l2.values →
      (goFileLoads jdec ydec fs l1 fields).values =
        (goFileLoads jdec ydec fs l2 fields).values := by
  induction fields with
  | nil => intro l1 l2 h; simpa [goFileLoads] using h
  | cons f rest ih =>
    intro l1 l2 h
    by_cases hs : f.settable = false
    · simp only [goFileLoads, if_pos hs]
      exact ih h
    · simp only [goFileLoads, if_neg hs]
      by_cases hfile : f.tagFile = ""
      · simp only [if_pos hfile]
        exact ih h
      · simp only [if_neg hfile]
        exact ih (goLoadFile_values_congr _ _ _ _ h)

/-- C6 amended: for every SUCCESSFUL `Load` call on a struct with no settable
duration-typed field carrying a non-empty `default` tag, the file-value table
afterwards is exactly what the tag-directed file loads alone produce — no
entries from tag default literals or resolved field values. (Duration fields
with a non-empty default DO store that literal; see the counterexample.) -/
theorem c6_amended (jdec ydec : Decoder) (fs : FS) (env : Env) (fields : List GoField) :
    ∀ (l l' : Loader) (asg : List (String × FieldVal)),
      (∀ f ∈ fields, f.settable = true → f.kind = FieldKind.duration → f.tagDefault = "") →
      goLoad jdec ydec fs env l fields = Except.ok (l', asg) →
      l'.values = (goFileLoads jdec ydec fs l fields).values := by
  induction fields with
  | nil =>
    intro l l' asg _ hok
    simp only [goLoad, Except.ok.injEq, Prod.mk.injEq] at hok
    rw [← hok.1]
    simp [goFileLoads]
  | cons f rest ih =>
    intro l l' asg hnd hok
    have hndr : ∀ g ∈ rest, g.settable = true → g.kind = FieldKind.duration →
        g.tagDefault = "" := fun g hg => hnd g (by simp [hg])
    by_cases hs : f.settable = false
    · simp only [goLoad, if_pos hs] at hok
      simp only [goFileLoads, if_pos hs]
      exact ih _ _ _ hndr hok
    · have hs' : f.settable = true := by revert hs; cases f.settable <;> simp
      simp only [goLoad, if_neg hs] at hok
      simp only [goFileLoads, if_neg hs]
      by_cases hkind : f.kind = FieldKind.duration
      · have hdef : f.tagDefault = "" := hnd f (by simp) hs' hkind
        rw [if_pos hkind, hdef, if_pos rfl] at hok
        cases hrec : goLoad jdec ydec fs env
            (goDuration (if f.tagFile = "" then l else (goLoadFile jdec ydec fs l f.tagFile).2)
              env (if f.tagConfig = "" then goToLower f.name else f.tagConfig) 0).2 rest with
        | error e =>
          rw [hrec] at hok
          simp at hok
        | ok pr =>
          obtain ⟨l'', asg'⟩ := pr
          rw [hrec] at hok
          simp only [Except.ok.injEq, Prod.mk.injEq] at hok
          rw [← hok.1]
          rw [ih _ _ _ hndr hrec]
          exact goFileLoads_values_congr _ _ _ rest (goDuration_values _ env _ 0)
      · rw [if_neg hkind] at hok
        by_cases hv : fieldResolve
            (if f.tagFile = "" then l else (goLoadFile jdec ydec fs l f.tagFile).2) env f
            (if f.tagConfig = "" then goToLower f.name else f.tagConfig) = ""
        · rw [if_pos hv] at hok
          exact ih _ _ _ hndr hok
        · rw [if_neg hv] at hok
          cases hsf : goSetField f.kind
              (fieldResolve (if f.tagFile = "" then l else (goLoadFile jdec ydec fs l f.tagFile).2)
                env f (if f.tagConfig = "" then goToLower f.name else f.tagConfig)) with
          | error e =>
            rw [hsf] at hok
            simp at hok
          | ok fv =>
            rw [hsf] at hok
            cases hrec : goLoad jdec ydec fs env
                (if f.tagFile = "" then l else (goLoadFile jdec ydec fs l f.tagFile).2) rest with
            | error e =>
              rw [hrec] at hok
              simp at hok
            | ok pr =>
              obtain ⟨l'', asg'⟩ := pr
              rw [hrec] at hok
              simp only [Except.ok.injEq, Prod.mk.injEq] at hok
              rw [← hok.1]
              exact ih _ _ _ hndr hrec

/-- C6 counterexample: binding a duration field with `default:"30s"` and no
`file` tag writes the default literal `"30s"` into the file-value table under
the uppercased config key, although the tag-directed file loads alone
(there are none) leave the table empty. -/
theorem c6_counterexample :
    (match goLoad (fun _ => none) (fun _ => none) (fun _ => none) (fun _ => "") (goNew "")
        [{ name := "Timeout", tagConfig := "timeout", tagEnv := "", tagDefault := "30s",
           tagFile := "", kind := FieldKind.duration, settable := true }] with
      | Except.ok (lr, _) => lr.values "TIMEOUT"
      | Except.error _ => none) = some "30s" ∧
    (goFileLoads (fun _ => none) (fun _ => none) (fun _ => none) (goNew "")
        [{ name := "Timeout", tagConfig := "timeout", tagEnv := "", tagDefault := "30s",
           tagFile := "", kind := FieldKind.duration, settable := true }]).values
      "TIMEOUT" = none := by
  exact ⟨by decide, rfl⟩

/-- Witness for the amended C6: a successful one-field string binding with a
`file` tag leaves the table exactly as the file load alone would. -/
theorem c6_amended_witness :
    ((goLoadFile (fun _ => none) (fun _ => none) (fun _ => some "A=B") (goNew "")
        "f.env").2).values =
      (goFileLoads (fun _ => none) (fun _ => none) (fun _ => some "A=B") (goNew "")
        [{ name := "Host", tagConfig := "a", tagEnv := "", tagDefault := "", tagFile := "f.env",
           kind := FieldKind.str, settable := true }]).values := by
  exact c6_amended (fun _ => none) (fun _ => none) (fun _ => some "A=B") (fun _ => "")
    [{ name := "Host", tagConfig := "a", tagEnv := "", tagDefault := "", tagFile := "f.env",
       kind := FieldKind.str, settable := true }]
    (goNew "")
    ((goLoadFile (fun _ => none) (fun _ => none) (fun _ => some "A=B") (goNew "") "f.env").2)
    [("Host", FieldVal.vstr "B")]
    (by
      intro f hf _ h2
      simp only [List.mem_singleton] at hf
      rw [hf] at h2
      exact absurd h2 (by decide))
    rfl

end Wayframe
